import Mathlib

/-!
Verification of `obliterate` (src/main.rs): a recursive tree deleter that
recovers from permission-denied failures by making the permission target
writable and retrying the removal exactly once.

The embedding below translates the source functions into Lean:
* permissions (`fs::Permissions`, both `cfg(unix)` and `cfg(not(unix))`
  variants) become `UnixPermissions` (a mode word) and `WindowsPermissions`
  (a read-only flag);
* the filesystem primitives (`remove_file`/`remove_dir`, `metadata`,
  `set_permissions`) are oracles packaged in an `FsEnv` describing the
  outcome each call would produce, and `remove_file_or_dir` additionally
  returns the trace of primitive invocations it performed;
* the `walkdir` crate (an external dependency, not part of this repository)
  is modelled from its documented contract used by the source
  (`WalkDir::new(path).contents_first(true)`): a post-order traversal of a
  filesystem tree, children before their parent.
-/

namespace Obliterate

/-- Kinds of `io::Error` relevant to the program: `remove_file`/`remove_dir`
and the metadata/permission calls either succeed or fail with some kind;
the code only ever branches on `PermissionDenied` (src/main.rs line 81). -/
inductive ErrKind where
  | permissionDenied
  | notFound
  | directoryNotEmpty
  | other (code : Nat)
  deriving DecidableEq, Repr

/-- Display of an `io::Error`, as Rust would render it in the `{}` of the
format strings in `remove_file_or_dir`. -/
def ErrKind.display : ErrKind → String
  | .permissionDenied => "permission denied (os error 13)"
  | .notFound => "No such file or directory (os error 2)"
  | .directoryNotEmpty => "Directory not empty (os error 39)"
  | .other code => "os error " ++ toString code

/-- Rust `enum FileOrDir` (src/main.rs lines 32-35): which removal primitive to
use for an entry. -/
inductive FileOrDir where
  | File
  | Dir
  deriving DecidableEq, Repr

/-- Rust `fs::Permissions` under `cfg(unix)`: the POSIX mode word, accessed via
`PermissionsExt::mode`. Modes are small bit patterns; `Nat` with bitwise
operations embeds the `u32` faithfully (no operation used can overflow). -/
structure UnixPermissions where
  mode : Nat
  deriving DecidableEq, Repr

/-- Function `set_writable` under `cfg(unix)` (src/main.rs lines 133-140): ORs the
owner-write bit `0o200` into the mode, deliberately not touching the
group/other write bits. -/
def set_writable_unix (permissions : UnixPermissions) : UnixPermissions :=
  ⟨permissions.mode ||| 0o200⟩

/-- Function `is_writable` under `cfg(unix)` (src/main.rs lines 147-154): tests the
owner-write bit `0o200` only. -/
def is_writable_unix (permissions : UnixPermissions) : Bool :=
  permissions.mode &&& 0o200 != 0

/-- Rust `fs::Permissions` under `cfg(not(unix))` (Windows): just the read-only
attribute. -/
structure WindowsPermissions where
  readonly : Bool
  deriving DecidableEq, Repr

/-- Function `set_writable` under `cfg(not(unix))` (src/main.rs lines 142-145):
`permissions.set_readonly(false)`. -/
def set_writable_win (_permissions : WindowsPermissions) : WindowsPermissions :=
  ⟨false⟩

/-- Function `is_writable` under `cfg(not(unix))` (src/main.rs lines 156-159):
`!permissions.readonly()`. -/
def is_writable_win (permissions : WindowsPermissions) : Bool :=
  !permissions.readonly

/-- The owner-write bit `0o200` is bit 7 of the mode word. -/
theorem ownerWriteBit_eq : (0o200 : Nat) = 2 ^ 7 := by norm_num

/-- Bit 7 of `0o200` is set. -/
theorem testBit_ownerWriteBit : Nat.testBit 0o200 7 = true := by decide

/-- Every other bit of `0o200` is clear. -/
theorem testBit_ownerWriteBit_ne (i : Nat) (hi : i ≠ 7) :
    Nat.testBit 0o200 i = false := by
  rw [ownerWriteBit_eq]
  exact Nat.testBit_two_pow_of_ne (Ne.symm hi)

/-- C4: `set_writable_unix` sets bit 7 (owner write) and leaves every other
bit of the mode unchanged. -/
theorem C4_set_writable_only_owner_bit (p : UnixPermissions) :
    (set_writable_unix p).mode.testBit 7 = true ∧
    ∀ i : Nat, i ≠ 7 → (set_writable_unix p).mode.testBit i = p.mode.testBit i := by
  constructor
  · simp [set_writable_unix, Nat.testBit_lor, testBit_ownerWriteBit]
  · intro i hi
    simp [set_writable_unix, Nat.testBit_lor, testBit_ownerWriteBit_ne i hi]

/-- Witness for C4 at a concrete mode `0o444`: the owner-write bit becomes
set while the group-write bit (bit 4) and other-write bit (bit 1) are
unchanged (still clear). -/
theorem C4_witness :
    (set_writable_unix ⟨0o444⟩).mode.testBit 7 = true ∧
    (set_writable_unix ⟨0o444⟩).mode.testBit 4 = (0o444 : Nat).testBit 4 ∧
    (set_writable_unix ⟨0o444⟩).mode.testBit 1 = (0o444 : Nat).testBit 1 :=
  ⟨(C4_set_writable_only_owner_bit ⟨0o444⟩).1,
   (C4_set_writable_only_owner_bit ⟨0o444⟩).2 4 (by decide),
   (C4_set_writable_only_owner_bit ⟨0o444⟩).2 1 (by decide)⟩

/-- C10: on both platform variants, a permission state is writable after
`set_writable` is applied to it. -/
theorem C10_set_writable_makes_writable :
    (∀ p : UnixPermissions, is_writable_unix (set_writable_unix p) = true) ∧
    (∀ p : WindowsPermissions, is_writable_win (set_writable_win p) = true) := by
  constructor
  · intro p
    simp only [is_writable_unix, set_writable_unix, bne_iff_ne, ne_eq]
    intro h
    have h7 : ((p.mode ||| 0o200) &&& 0o200).testBit 7 = true := by
      simp [Nat.testBit_land, Nat.testBit_lor, testBit_ownerWriteBit]
    rw [h] at h7
    simp [Nat.zero_testBit] at h7
  · intro p
    rfl

/-! ## Paths and the permission target

A filesystem path is embedded as its list of components; the absolute root
`/` is `[]`. `Path::parent` returns `None` exactly for a root. -/

/-- Rust `Path::parent`: drop the last component; a root has no parent. -/
def pathParent : List String → Option (List String)
  | [] => none
  | p => some p.dropLast

/-- Rendering of a path for error messages (the `{}` of `display()`). -/
def pathDisplay (p : List String) : String :=
  "/" ++ String.intercalate "/" p

/-- The error value `remove_file_or_dir` can return (an `anyhow::Error`):
either a propagated `io::Error`, or one of the three `bail!`/`anyhow!`
messages of the source. Each constructor records the data interpolated
into the corresponding format string. -/
inductive RemoveError where
  /-- An `io::Error` propagated unchanged (src/main.rs lines 82, 113, 130). -/
  | io (kind : ErrKind)
  /-- The error `anyhow!("Cannot make parent path writable because it is in the root
  directory")` (src/main.rs lines 163-165). -/
  | noParent
  /-- The error `bail!("Permission denied, additionally an error occured when reading
  the metadata of ...: ...")` (src/main.rs lines 101-106). -/
  | metadataFailed (target : List String) (metaErr : ErrKind)
  /-- The error `bail!("Error setting ... to be writable: ...")`
  (src/main.rs lines 122-126). -/
  | setWritableFailed (target : List String) (setErr : ErrKind)
  deriving DecidableEq, Repr

/-- The message each error renders to, following the source format strings
(the single-quote characters that surround the interpolated path in the
source are elided from the embedding). -/
def RemoveError.message : RemoveError → String
  | .io kind => kind.display
  | .noParent => "Cannot make parent path writable because it is in the root directory"
  | .metadataFailed target metaErr =>
      "Permission denied, additionally an error occured when reading the metadata of "
        ++ pathDisplay target ++ ": " ++ metaErr.display
  | .setWritableFailed target setErr =>
      "Error setting " ++ pathDisplay target ++ " to be writable: " ++ setErr.display

/-- True when `pat` occurs as a contiguous run somewhere in `l`. -/
def containsSubstrList (pat : List Char) : List Char → Bool
  | [] => pat.isEmpty
  | c :: rest => pat.isPrefixOf (c :: rest) || containsSubstrList pat rest

/-- True when `s` contains `pat` as a substring. -/
def containsSubstr (s pat : String) : Bool :=
  containsSubstrList pat.data s.data

/-- A message textually references the permission-denied condition
(either the capitalised words of the `bail!` format string or the
lower-case rendering of the `io::Error` itself). -/
def mentionsPermissionDenied (s : String) : Bool :=
  containsSubstr s "Permission denied" || containsSubstr s "permission denied"

/-! ## The permission-recovering remover

`remove_file_or_dir` makes at most four filesystem calls: the first removal
attempt, `permission_target.metadata()`, `fs::set_permissions`, and the
retry of the removal. The `FsEnv` oracle fixes the outcome each of those
calls would have; the function returns its result together with the trace
of primitive invocations actually performed, in order. -/

/-- One filesystem primitive invocation performed by `remove_file_or_dir`. -/
inductive FsOp (Perm : Type) where
  /-- An invocation of the removal primitive (`fs::remove_file` or
  `fs::remove_dir`, chosen by the entry kind). -/
  | removeCall (path : List String) (kind : FileOrDir)
  /-- The call `permission_target.metadata()`. -/
  | metadataRead (target : List String)
  /-- The call `fs::set_permissions(permission_target, permissions)`. -/
  | setPermissionsCall (target : List String) (p : Perm)
  deriving DecidableEq, Repr

/-- Outcomes of the filesystem calls `remove_file_or_dir` may make.
`none`/`Except.ok` means the call succeeds. -/
structure FsEnv (Perm : Type) where
  /-- Outcome of the first `remove_item(path)` call. -/
  firstRemove : Option ErrKind
  /-- Outcome of `permission_target.metadata()` (yielding its permissions). -/
  metadata : Except ErrKind Perm
  /-- Outcome of `fs::set_permissions`. -/
  setPermissionsResult : Option ErrKind
  /-- Outcome of the retried `remove_item(path)` call. -/
  secondRemove : Option ErrKind

/-- The platform-conditional pieces of the source, selected by
`cfg(unix)`/`cfg(not(unix))`: the permission representation together with
`set_writable`, `is_writable` and `path_to_make_writable`. -/
structure Platform (Perm : Type) where
  set_writable : Perm → Perm
  is_writable : Perm → Bool
  path_to_make_writable : List String → FileOrDir → Except RemoveError (List String)

/-- The `cfg(unix)` platform: mode-word permissions; the permission target
is the parent directory (src/main.rs lines 161-166), an error if none. -/
def unixPlatform : Platform UnixPermissions where
  set_writable := set_writable_unix
  is_writable := is_writable_unix
  path_to_make_writable := fun path _ =>
    match pathParent path with
    | none => .error .noParent
    | some parent => .ok parent

/-- The `cfg(not(unix))` platform: read-only-flag permissions; the
permission target is the entry itself (src/main.rs lines 168-171). -/
def windowsPlatform : Platform WindowsPermissions where
  set_writable := set_writable_win
  is_writable := is_writable_win
  path_to_make_writable := fun path _ => .ok path

/-- Function `remove_file_or_dir` (src/main.rs lines 70-131), over the outcomes in
`env`. Returns the result and the ordered trace of primitive calls:
1. try `remove_item(path)`; success and non-permission-denied errors
   return immediately;
2. on permission denied, compute the permission target;
3. read its metadata (bail with a dedicated message on failure);
4. if already writable, return the original error;
5. set it writable via `fs::set_permissions` (bail on failure);
6. retry `remove_item(path)` once and return that result verbatim. -/
def remove_file_or_dir {Perm : Type} (P : Platform Perm) (env : FsEnv Perm)
    (path : List String) (kind : FileOrDir) :
    Except RemoveError Unit × List (FsOp Perm) :=
  match env.firstRemove with
  | none => (.ok (), [.removeCall path kind])
  | some e =>
    if e = ErrKind.permissionDenied then
      match P.path_to_make_writable path kind with
      | .error pe => (.error pe, [.removeCall path kind])
      | .ok target =>
        match env.metadata with
        | .error metaErr =>
            (.error (.metadataFailed target metaErr),
             [.removeCall path kind, .metadataRead target])
        | .ok permissions =>
          if P.is_writable permissions then
            (.error (.io e), [.removeCall path kind, .metadataRead target])
          else
            let permissions2 := P.set_writable permissions
            match env.setPermissionsResult with
            | some setErr =>
                (.error (.setWritableFailed target setErr),
                 [.removeCall path kind, .metadataRead target,
                  .setPermissionsCall target permissions2])
            | none =>
              match env.secondRemove with
              | none =>
                  (.ok (),
                   [.removeCall path kind, .metadataRead target,
                    .setPermissionsCall target permissions2, .removeCall path kind])
              | some e2 =>
                  (.error (.io e2),
                   [.removeCall path kind, .metadataRead target,
                    .setPermissionsCall target permissions2, .removeCall path kind])
    else
      (.error (.io e), [.removeCall path kind])

/-- Number of removal-primitive invocations in a trace. -/
def countRemoveCalls {Perm : Type} (trace : List (FsOp Perm)) : Nat :=
  trace.countP (fun op => match op with | .removeCall _ _ => true | _ => false)

/-- Number of `fs::set_permissions` invocations in a trace. -/
def countSetPermissions {Perm : Type} (trace : List (FsOp Perm)) : Nat :=
  trace.countP (fun op => match op with | .setPermissionsCall _ _ => true | _ => false)

/-- The result of the retried removal, mapped exactly as line 130
(`Ok(remove_item(path)?)`) maps it. -/
def retryResult {Perm : Type} (env : FsEnv Perm) : Except RemoveError Unit :=
  match env.secondRemove with
  | none => .ok ()
  | some e2 => .error (.io e2)

/-- Whether an error is, or its message textually opens with, the original
permission-denied condition: `.io .permissionDenied` is the original
`io::Error` itself, and the `.metadataFailed` format string literally
begins with the words `Permission denied` (see `RemoveError.message`);
the other messages carry only their own data. -/
def attributedToPermissionDenied : RemoveError → Bool
  | .io .permissionDenied => true
  | .metadataFailed _ _ => true
  | _ => false

/-- Concrete environment: recovery succeeds and the retry fails with a
fresh error, exercising the retry path. -/
def envRetry : FsEnv UnixPermissions where
  firstRemove := some .permissionDenied
  metadata := .ok ⟨0o555⟩
  setPermissionsResult := none
  secondRemove := some (.other 5)

/-- Concrete environment: the permission target is already writable. -/
def envWritable : FsEnv UnixPermissions where
  firstRemove := some .permissionDenied
  metadata := .ok ⟨0o755⟩
  setPermissionsResult := none
  secondRemove := none

/-- Concrete environment: the first removal fails with a non-permission
error. -/
def envNotFound : FsEnv UnixPermissions where
  firstRemove := some .notFound
  metadata := .ok ⟨0o755⟩
  setPermissionsResult := none
  secondRemove := none

/-- Concrete environment: reading the permission target's metadata fails. -/
def envMetaFail : FsEnv UnixPermissions where
  firstRemove := some .permissionDenied
  metadata := .error .notFound
  setPermissionsResult := none
  secondRemove := none

/-- Concrete environment: applying the updated permissions fails. -/
def envSetFail : FsEnv UnixPermissions where
  firstRemove := some .permissionDenied
  metadata := .ok ⟨0o555⟩
  setPermissionsResult := some .notFound
  secondRemove := none

/-- C2: the removal primitive is never invoked more than twice; and on the
recovery path (permission denied, target resolved, target not writable,
permission change succeeded) the retry happens exactly once, its result is
returned verbatim, and the trace ends at the retry (no recovery follows
it). -/
theorem C2_retry_exactly_once :
    (∀ {Perm : Type} (P : Platform Perm) (env : FsEnv Perm)
      (path : List String) (kind : FileOrDir),
      countRemoveCalls (remove_file_or_dir P env path kind).2 ≤ 2) ∧
    (∀ {Perm : Type} (P : Platform Perm) (env : FsEnv Perm)
      (path : List String) (kind : FileOrDir) (target : List String) (perms : Perm),
      env.firstRemove = some .permissionDenied →
      P.path_to_make_writable path kind = .ok target →
      env.metadata = .ok perms →
      P.is_writable perms = false →
      env.setPermissionsResult = none →
      (remove_file_or_dir P env path kind).1 = retryResult env ∧
      (remove_file_or_dir P env path kind).2 =
        [.removeCall path kind, .metadataRead target,
         .setPermissionsCall target (P.set_writable perms), .removeCall path kind]) := by
  constructor
  · intro Perm P env path kind
    unfold remove_file_or_dir
    repeat' split
    all_goals first
      | exact Nat.le_refl 2
      | exact Nat.le_succ 1
  · intro Perm P env path kind target perms h1 h2 h3 h4 h5
    cases hsr : env.secondRemove <;>
      simp [remove_file_or_dir, retryResult, h1, h2, h3, h4, h5, hsr]

/-- Witness for C2 on `envRetry`: the retry runs and its failure
(`other 5`) is returned verbatim, with exactly the four-step trace. -/
theorem C2_witness :
    (remove_file_or_dir unixPlatform envRetry ["a", "b"] .File).1 =
      .error (.io (.other 5)) ∧
    (remove_file_or_dir unixPlatform envRetry ["a", "b"] .File).2 =
      [.removeCall ["a", "b"] .File, .metadataRead ["a"],
       .setPermissionsCall ["a"] ⟨0o755⟩, .removeCall ["a", "b"] .File] := by
  have h := C2_retry_exactly_once.2 unixPlatform envRetry ["a", "b"] .File ["a"] ⟨0o555⟩
    rfl rfl rfl (by decide) rfl
  exact ⟨h.1, h.2⟩

/-- C3: when the permission target is already writable, the original
permission-denied error is returned as a terminal failure: no retry (one
removal call), no permission modification (no `set_permissions` call). -/
theorem C3_already_writable_terminal :
    ∀ {Perm : Type} (P : Platform Perm) (env : FsEnv Perm)
      (path : List String) (kind : FileOrDir) (target : List String) (perms : Perm),
      env.firstRemove = some .permissionDenied →
      P.path_to_make_writable path kind = .ok target →
      env.metadata = .ok perms →
      P.is_writable perms = true →
      (remove_file_or_dir P env path kind).1 = .error (.io .permissionDenied) ∧
      (remove_file_or_dir P env path kind).2 =
        [.removeCall path kind, .metadataRead target] ∧
      countRemoveCalls (remove_file_or_dir P env path kind).2 = 1 ∧
      countSetPermissions (remove_file_or_dir P env path kind).2 = 0 := by
  intro Perm P env path kind target perms h1 h2 h3 h4
  simp [remove_file_or_dir, h1, h2, h3, h4, countRemoveCalls, countSetPermissions,
    List.countP_cons, List.countP_nil]

/-- Witness for C3 on `envWritable` (mode `0o755`, owner-writable). -/
theorem C3_witness :
    (remove_file_or_dir unixPlatform envWritable ["a", "b"] .File).1 =
      .error (.io .permissionDenied) ∧
    (remove_file_or_dir unixPlatform envWritable ["a", "b"] .File).2 =
      [.removeCall ["a", "b"] .File, .metadataRead ["a"]] := by
  have h := C3_already_writable_terminal unixPlatform envWritable ["a", "b"] .File
    ["a"] ⟨0o755⟩ rfl rfl rfl (by decide)
  exact ⟨h.1, h.2.1⟩

/-- C5: any first-removal error other than permission denied is propagated
unchanged, and the trace is the single removal call: no metadata read, no
permission change, no retry. -/
theorem C5_other_errors_propagate :
    ∀ {Perm : Type} (P : Platform Perm) (env : FsEnv Perm)
      (path : List String) (kind : FileOrDir) (e : ErrKind),
      env.firstRemove = some e →
      e ≠ .permissionDenied →
      (remove_file_or_dir P env path kind).1 = .error (.io e) ∧
      (remove_file_or_dir P env path kind).2 = [.removeCall path kind] := by
  intro Perm P env path kind e h1 h2
  simp [remove_file_or_dir, h1, h2]

/-- Witness for C5 on `envNotFound`: a not-found failure propagates with a
one-call trace. -/
theorem C5_witness :
    (remove_file_or_dir unixPlatform envNotFound ["a", "b"] .File).1 =
      .error (.io .notFound) ∧
    (remove_file_or_dir unixPlatform envNotFound ["a", "b"] .File).2 =
      [.removeCall ["a", "b"] .File] :=
  C5_other_errors_propagate unixPlatform envNotFound ["a", "b"] .File .notFound
    rfl (by decide)

/-- C6: on the POSIX platform, a permission-denied failure on a path with
no parent returns the dedicated no-parent error without reading or writing
any permission state; its message labels the condition. -/
theorem C6_no_parent_terminal :
    ∀ (env : FsEnv UnixPermissions) (path : List String) (kind : FileOrDir),
      pathParent path = none →
      env.firstRemove = some .permissionDenied →
      (remove_file_or_dir unixPlatform env path kind).1 = .error .noParent ∧
      (remove_file_or_dir unixPlatform env path kind).2 = [.removeCall path kind] ∧
      RemoveError.noParent.message =
        "Cannot make parent path writable because it is in the root directory" := by
  intro env path kind hp h1
  refine ⟨?_, ?_, rfl⟩ <;>
    simp [remove_file_or_dir, unixPlatform, h1, hp]

/-- Witness for C6 at the root path `[]` under `envRetry`. -/
theorem C6_witness :
    (remove_file_or_dir unixPlatform envRetry [] .Dir).1 = .error .noParent ∧
    (remove_file_or_dir unixPlatform envRetry [] .Dir).2 = [.removeCall [] .Dir] := by
  have h := C6_no_parent_terminal envRetry [] .Dir rfl rfl
  exact ⟨h.1, h.2.1⟩

/-- C9 fails as stated: when applying the updated permission state fails
(here: the target vanished, `notFound`), the returned failure's message is
`Error setting /a to be writable: No such file or directory (os error 2)`,
which does not reference the original permission-denied cause at all. -/
theorem C9_counterexample :
    (remove_file_or_dir unixPlatform envSetFail ["a", "b"] .File).1 =
      .error (.setWritableFailed ["a"] .notFound) ∧
    mentionsPermissionDenied
      (RemoveError.message (.setWritableFailed ["a"] .notFound)) = false := by
  exact ⟨rfl, by decide⟩

/-- C9 amended: a metadata-read failure is a distinct terminal failure
attributed to the original permission-denied cause, with no retry; a
permission-change failure is a distinct terminal failure with no retry,
but it is attributed only to the `set_permissions` error, not to the
original permission-denied cause. -/
theorem C9_amended_recovery_failures :
    (∀ {Perm : Type} (P : Platform Perm) (env : FsEnv Perm)
      (path : List String) (kind : FileOrDir) (target : List String) (metaErr : ErrKind),
      env.firstRemove = some .permissionDenied →
      P.path_to_make_writable path kind = .ok target →
      env.metadata = .error metaErr →
      (remove_file_or_dir P env path kind).1 = .error (.metadataFailed target metaErr) ∧
      (remove_file_or_dir P env path kind).2 =
        [.removeCall path kind, .metadataRead target] ∧
      attributedToPermissionDenied (.metadataFailed target metaErr) = true) ∧
    (∀ {Perm : Type} (P : Platform Perm) (env : FsEnv Perm)
      (path : List String) (kind : FileOrDir) (target : List String)
      (perms : Perm) (setErr : ErrKind),
      env.firstRemove = some .permissionDenied →
      P.path_to_make_writable path kind = .ok target →
      env.metadata = .ok perms →
      P.is_writable perms = false →
      env.setPermissionsResult = some setErr →
      (remove_file_or_dir P env path kind).1 = .error (.setWritableFailed target setErr) ∧
      countRemoveCalls (remove_file_or_dir P env path kind).2 = 1 ∧
      attributedToPermissionDenied (.setWritableFailed target setErr) = false) := by
  constructor
  · intro Perm P env path kind target metaErr h1 h2 h3
    simp [remove_file_or_dir, h1, h2, h3, attributedToPermissionDenied]
  · intro Perm P env path kind target perms setErr h1 h2 h3 h4 h5
    simp [remove_file_or_dir, h1, h2, h3, h4, h5, attributedToPermissionDenied,
      countRemoveCalls, List.countP_cons, List.countP_nil]

/-- Witness for the amended C9 on `envMetaFail`: the metadata-read failure
is returned without a retry, and its rendered message does open with the
words `Permission denied`. -/
theorem C9_amended_witness :
    ((remove_file_or_dir unixPlatform envMetaFail ["a", "b"] .File).1 =
      .error (.metadataFailed ["a"] .notFound) ∧
     (remove_file_or_dir unixPlatform envMetaFail ["a", "b"] .File).2 =
      [.removeCall ["a", "b"] .File, .metadataRead ["a"]] ∧
     attributedToPermissionDenied (.metadataFailed ["a"] .notFound) = true) ∧
    mentionsPermissionDenied
      (RemoveError.message (.metadataFailed ["a"] .notFound)) = true :=
  ⟨C9_amended_recovery_failures.1 unixPlatform envMetaFail ["a", "b"] .File
    ["a"] .notFound rfl rfl rfl, by decide⟩

/-! ## The tree walker

Modelled from the spec: the `walkdir` crate used at src/main.rs line 41
(`WalkDir::new(path).contents_first(true)`) is an external dependency whose
code is not part of this repository. Per its contract as stated by the
spec (section 4.1), it yields every entry of the tree in contents-first
(post-order) fashion: all entries nested inside a directory are yielded
before the directory itself, and a plain-file root yields exactly itself. -/

/-- An entry produced by the walker: a path plus its kind, as consumed by
`remove_path` (src/main.rs lines 44-51, `entry.path()` and
`entry.file_type().is_dir()`). -/
structure Entry where
  path : List String
  kind : FileOrDir
  deriving DecidableEq, Repr

mutual
/-- A filesystem tree: a plain file (symlinks included) or a directory
with a forest of children. -/
inductive FsTree where
  | file (name : String)
  | dir (name : String) (children : FsForest)
inductive FsForest where
  | nil
  | cons (head : FsTree) (tail : FsForest)
end

/-- The name (final path component) of a tree's root node. -/
def FsTree.name : FsTree → String
  | .file n => n
  | .dir n _ => n

mutual
/-- Modelled from the spec: `walkdir` with `contents_first(true)` yields a
post-order traversal; `walk pre t` is the sequence of entries for the tree
`t` mounted at the directory path `pre`. -/
def walk (pre : List String) : FsTree → List Entry
  | .file n => [⟨pre ++ [n], .File⟩]
  | .dir n cs => walkForest (pre ++ [n]) cs ++ [⟨pre ++ [n], .Dir⟩]
def walkForest (pre : List String) : FsForest → List Entry
  | .nil => []
  | .cons t ts => walk pre t ++ walkForest pre ts
end

mutual
/-- The nodes of a tree (in root-first order), used to state that the walk
covers every node exactly once. -/
def nodesOf (pre : List String) : FsTree → List Entry
  | .file n => [⟨pre ++ [n], .File⟩]
  | .dir n cs => ⟨pre ++ [n], .Dir⟩ :: nodesForest (pre ++ [n]) cs
def nodesForest (pre : List String) : FsForest → List Entry
  | .nil => []
  | .cons t ts => nodesOf pre t ++ nodesForest pre ts
end

/-- The names of the roots of a forest (the entries of one directory). -/
def forestNames : FsForest → List String
  | .nil => []
  | .cons t ts => t.name :: forestNames ts

mutual
/-- Well-formedness of a filesystem tree: within any directory, sibling
names are distinct (as they are on a real filesystem). -/
def wfT : FsTree → Bool
  | .file _ => true
  | .dir _ cs => decide (forestNames cs).Nodup && wfF cs
def wfF : FsForest → Bool
  | .nil => true
  | .cons t ts => wfT t && wfF ts
end

/-- True when `a` is a strict ancestor path of `b` (proper prefix of components). -/
def strictAncestorB (a b : List String) : Bool :=
  decide (a <+: b ∧ a ≠ b)

/-! ## The orchestrator (`remove_path` and `main`) -/

/-- One item yielded by the walker's iterator: an entry, or a traversal
error (`Err(e)` at src/main.rs lines 56-59). -/
inductive WalkItem where
  | ok (entry : Entry)
  | err (msg : String)
  deriving DecidableEq, Repr

/-- Whether a removal result is a success. -/
def resultIsOk {ε α : Type} : Except ε α → Bool
  | .ok _ => true
  | .error _ => false

/-- The entry of a walker item, if it is one. -/
def okEntry : WalkItem → Option Entry
  | .ok e => some e
  | .err _ => none

/-- The loop of `remove_path` (src/main.rs lines 39-61) over the walker's
items, abstracted over the per-entry remover: returns the final `success`
flag together with the ordered list of entries on which removal was
attempted. An `Ok` item has removal attempted and clears `success` if the
removal fails; an `Err` item clears `success`; neither stops the loop. -/
def removePathRun (remover : Entry → Except RemoveError Unit) :
    List WalkItem → Bool × List Entry
  | [] => (true, [])
  | .ok e :: rest =>
      let r := removePathRun remover rest
      (resultIsOk (remover e) && r.1, e :: r.2)
  | .err _ :: rest =>
      let r := removePathRun remover rest
      (false, r.2)

/-- Function `remove_path` (src/main.rs lines 38-67): run the loop; if any failure
was recorded, `bail!("One or more errors deleting ...")`. -/
def remove_path (remover : Entry → Except RemoveError Unit)
    (rootPath : List String) (items : List WalkItem) : Except String Unit :=
  if (removePathRun remover items).1 then
    .ok ()
  else
    .error ("One or more errors deleting " ++ pathDisplay rootPath)

/-- Function `main` (src/main.rs lines 18-28): iterate over the supplied root
paths, calling `remove_path` on each and deliberately discarding its
result (`let _ = remove_path(&path);` — the source comments that the
per-file errors are already printed and the overall error is unused),
then return `Ok(())`. Returns the process result together with the
discarded per-root results. -/
def mainRun (remover : Entry → Except RemoveError Unit)
    (roots : List (List String × List WalkItem)) :
    Except String Unit × List (Except String Unit) :=
  (.ok (), roots.map (fun r => remove_path remover r.1 r.2))

/-- The process exit status of an `anyhow::Result` main: 0 on `Ok`,
non-zero on `Err`. -/
def exitCode : Except String Unit → Nat
  | .ok _ => 0
  | .error _ => 1

/-- The entries attempted by the `remove_path` loop are exactly the `Ok`
items of the walker, in order, whatever the remover returns. -/
theorem removePathRun_attempts (remover : Entry → Except RemoveError Unit)
    (items : List WalkItem) :
    (removePathRun remover items).2 = items.filterMap okEntry := by
  induction items with
  | nil => rfl
  | cons it rest ih =>
    cases it <;> simp [removePathRun, okEntry, List.filterMap_cons, ih]

/-- The `success` flag computed by the `remove_path` loop is true exactly
when every item is an `Ok` entry whose removal succeeded. -/
theorem removePathRun_success (remover : Entry → Except RemoveError Unit)
    (items : List WalkItem) :
    (removePathRun remover items).1 =
      items.all (fun it =>
        match it with
        | .ok e => resultIsOk (remover e)
        | .err _ => false) := by
  induction items with
  | nil => rfl
  | cons it rest ih =>
    cases it <;> simp [removePathRun, List.all_cons, ih]

/-- C7: `remove_path` fails exactly when the walker yielded an error item
or some entry's removal failed; and regardless of failures, removal is
attempted on every yielded entry (the attempts are all the `Ok` items, in
order — an entry failure never stops the walk). -/
theorem remove_path_ok_iff (remover : Entry → Except RemoveError Unit)
    (rootPath : List String) (items : List WalkItem) :
    remove_path remover rootPath items = .ok () ↔
      (removePathRun remover items).1 = true := by
  unfold remove_path
  cases h : (removePathRun remover items).1 <;> simp [h]

/-- C7: `remove_path` fails exactly when the walker yielded an error item
or some entry's removal failed; and regardless of failures, removal is
attempted on every yielded entry (the attempts are all the `Ok` items, in
order — an entry failure never stops the walk). -/
theorem C7_root_failure_aggregation (remover : Entry → Except RemoveError Unit)
    (rootPath : List String) (items : List WalkItem) :
    ((remove_path remover rootPath items ≠ .ok ()) ↔
      ((∃ m, WalkItem.err m ∈ items) ∨
       (∃ e, WalkItem.ok e ∈ items ∧ resultIsOk (remover e) = false))) ∧
    (removePathRun remover items).2 = items.filterMap okEntry := by
  refine ⟨?_, removePathRun_attempts remover items⟩
  constructor
  · intro h
    have hfalse : (removePathRun remover items).1 = false := by
      cases hs : (removePathRun remover items).1
      · rfl
      · exact absurd ((remove_path_ok_iff remover rootPath items).mpr hs) h
    rw [removePathRun_success remover items, List.all_eq_false] at hfalse
    obtain ⟨it, hmem, hfail⟩ := hfalse
    cases it with
    | ok e =>
      refine .inr ⟨e, hmem, ?_⟩
      simpa using hfail
    | err m => exact .inl ⟨m, hmem⟩
  · intro hbad h
    have htrue := (remove_path_ok_iff remover rootPath items).mp h
    rw [removePathRun_success remover items, List.all_eq_true] at htrue
    rcases hbad with ⟨m, hm⟩ | ⟨e, he, hfail⟩
    · have := htrue _ hm
      simp at this
    · have h2 : resultIsOk (remover e) = true := htrue _ he
      rw [hfail] at h2
      exact Bool.false_ne_true h2

/-- C8 fails as stated: a run where the only root path fails (its walker
yields a traversal error, so `remove_path` reports failure) still exits
with status 0, because `main` discards each `remove_path` result. -/
theorem C8_counterexample :
    (mainRun (fun _ => .error (.io .permissionDenied))
        [(["a"], [WalkItem.err "loop error"])]).2 =
      [.error ("One or more errors deleting " ++ pathDisplay ["a"])] ∧
    exitCode (mainRun (fun _ => .error (.io .permissionDenied))
        [(["a"], [WalkItem.err "loop error"])]).1 = 0 :=
  ⟨rfl, rfl⟩

/-- C8 amended: the process exit status is always zero — `main` ignores
every `remove_path` result (`let _ = remove_path(&path);`), so per-root
failures never reach the exit status. -/
theorem C8_amended_exit_always_zero (remover : Entry → Except RemoveError Unit)
    (roots : List (List String × List WalkItem)) :
    exitCode (mainRun remover roots).1 = 0 :=
  rfl

/-! ## Contents-first order of the walk (claim C1) -/

mutual
/-- Every entry of `walk pre t` lives strictly below `pre`, in the subtree
named after `t`'s root. -/
theorem walk_shape (pre : List String) (t : FsTree) :
    ∀ e ∈ walk pre t, ∃ s : List String, e.path = pre ++ t.name :: s := by
  cases t with
  | file n =>
    intro e he
    simp only [walk, List.mem_singleton] at he
    exact ⟨[], by simp [he, FsTree.name]⟩
  | dir n cs =>
    intro e he
    simp only [walk, List.mem_append, List.mem_singleton] at he
    rcases he with he | he
    · obtain ⟨n2, _, s2, hpath⟩ := walkForest_shape (pre ++ [n]) cs e he
      exact ⟨n2 :: s2, by simp [hpath, FsTree.name]⟩
    · exact ⟨[], by simp [he, FsTree.name]⟩

/-- Every entry of `walkForest pre f` lives strictly below `pre`, in the
subtree of one of the forest's roots. -/
theorem walkForest_shape (pre : List String) (f : FsForest) :
    ∀ e ∈ walkForest pre f,
      ∃ n2 ∈ forestNames f, ∃ s : List String, e.path = pre ++ n2 :: s := by
  cases f with
  | nil =>
    intro e he
    simp [walkForest] at he
  | cons t ts =>
    intro e he
    simp only [walkForest, List.mem_append] at he
    rcases he with he | he
    · obtain ⟨s, hpath⟩ := walk_shape pre t e he
      exact ⟨t.name, by simp [forestNames], s, hpath⟩
    · obtain ⟨n2, hn2, s, hpath⟩ := walkForest_shape pre ts e he
      exact ⟨n2, by simp [forestNames, hn2], s, hpath⟩
end

mutual
/-- The walk of a well-formed tree yields no duplicate entries. -/
theorem walk_nodup (pre : List String) (t : FsTree) (h : wfT t = true) :
    (walk pre t).Nodup := by
  cases t with
  | file n => simp [walk]
  | dir n cs =>
    simp only [wfT, Bool.and_eq_true, decide_eq_true_eq] at h
    simp only [walk]
    rw [List.nodup_append]
    refine ⟨walkForest_nodup (pre ++ [n]) cs h.2 h.1, List.nodup_singleton _, ?_⟩
    intro a ha hb
    simp only [List.mem_singleton] at hb
    obtain ⟨n2, _, s, hpath⟩ := walkForest_shape (pre ++ [n]) cs a ha
    rw [hb] at hpath
    have hlen := congrArg List.length hpath
    simp [List.length_append] at hlen

/-- The walk of a forest of well-formed trees with distinct root names
yields no duplicate entries. -/
theorem walkForest_nodup (pre : List String) (f : FsForest) (hwf : wfF f = true)
    (hn : (forestNames f).Nodup) : (walkForest pre f).Nodup := by
  cases f with
  | nil => simp [walkForest]
  | cons t ts =>
    simp only [wfF, Bool.and_eq_true] at hwf
    simp only [forestNames, List.nodup_cons] at hn
    simp only [walkForest]
    rw [List.nodup_append]
    refine ⟨walk_nodup pre t hwf.1, walkForest_nodup pre ts hwf.2 hn.2, ?_⟩
    intro a ha hb
    obtain ⟨s, hpath1⟩ := walk_shape pre t a ha
    obtain ⟨n2, hn2, s2, hpath2⟩ := walkForest_shape pre ts a hb
    rw [hpath1] at hpath2
    have hcons := List.append_cancel_left hpath2
    injection hcons with hname _
    exact hn.1 (hname ▸ hn2)
end

mutual
/-- In the walk of a well-formed tree, no entry is followed by an entry
nested strictly inside it: descendants always come first. -/
theorem walk_pairwise (pre : List String) (t : FsTree) (h : wfT t = true) :
    (walk pre t).Pairwise (fun a b => strictAncestorB a.path b.path = false) := by
  cases t with
  | file n => simp [walk]
  | dir n cs =>
    simp only [wfT, Bool.and_eq_true, decide_eq_true_eq] at h
    simp only [walk]
    rw [List.pairwise_append]
    refine ⟨walkForest_pairwise (pre ++ [n]) cs h.2 h.1, by simp, ?_⟩
    intro a ha b hb
    simp only [List.mem_singleton] at hb
    subst hb
    obtain ⟨n2, _, s, hpath⟩ := walkForest_shape (pre ++ [n]) cs a ha
    simp only [strictAncestorB, decide_eq_false_iff_not]
    rintro ⟨hp, -⟩
    have hlen := hp.length_le
    rw [hpath] at hlen
    simp [List.length_append] at hlen

/-- In the walk of a forest of well-formed trees with distinct root names,
no entry is followed by an entry nested strictly inside it. -/
theorem walkForest_pairwise (pre : List String) (f : FsForest) (hwf : wfF f = true)
    (hn : (forestNames f).Nodup) :
    (walkForest pre f).Pairwise (fun a b => strictAncestorB a.path b.path = false) := by
  cases f with
  | nil => simp [walkForest]
  | cons t ts =>
    simp only [wfF, Bool.and_eq_true] at hwf
    simp only [forestNames, List.nodup_cons] at hn
    simp only [walkForest]
    rw [List.pairwise_append]
    refine ⟨walk_pairwise pre t hwf.1, walkForest_pairwise pre ts hwf.2 hn.2, ?_⟩
    intro a ha b hb
    obtain ⟨s, hpath1⟩ := walk_shape pre t a ha
    obtain ⟨n2, hn2, s2, hpath2⟩ := walkForest_shape pre ts b hb
    simp only [strictAncestorB, decide_eq_false_iff_not]
    rintro ⟨hp, -⟩
    obtain ⟨u, hu⟩ := hp
    rw [hpath1, hpath2, List.append_assoc] at hu
    have hcons := List.append_cancel_left hu
    rw [List.cons_append] at hcons
    injection hcons with hname _
    exact hn.1 (hname ▸ hn2)
end

mutual
/-- The walk of a tree is a permutation of its nodes: every node of the
tree is yielded, and nothing else. -/
theorem walk_perm (pre : List String) (t : FsTree) :
    (walk pre t).Perm (nodesOf pre t) := by
  cases t with
  | file n => simp [walk, nodesOf]
  | dir n cs =>
    simp only [walk, nodesOf]
    refine List.Perm.trans (List.perm_append_singleton _ _) ?_
    exact List.Perm.cons _ (walkForest_perm (pre ++ [n]) cs)

/-- The walk of a forest is a permutation of its nodes. -/
theorem walkForest_perm (pre : List String) (f : FsForest) :
    (walkForest pre f).Perm (nodesForest pre f) := by
  cases f with
  | nil => exact List.Perm.refl _
  | cons t ts =>
    simp only [walkForest, nodesForest]
    exact List.Perm.append (walk_perm pre t) (walkForest_perm pre ts)
end

/-- Feeding the walk's entries through the `remove_path` loop attempts
exactly those entries, in order. -/
theorem removePathRun_map_ok (remover : Entry → Except RemoveError Unit)
    (l : List Entry) :
    (removePathRun remover (l.map WalkItem.ok)).2 = l := by
  induction l with
  | nil => rfl
  | cons e rest ih => simp [removePathRun, ih]

/-- C1: driving `remove_path` over the contents-first walk of a
well-formed tree attempts removal on exactly the walk's entries in order;
the walk is a permutation of the tree's nodes with no duplicates (each
entry attempted exactly once); and no entry ever precedes an entry nested
strictly inside it — in particular every directory comes after all of its
descendants. -/
theorem C1_contents_first_exactly_once (remover : Entry → Except RemoveError Unit)
    (t : FsTree) (h : wfT t = true) :
    (removePathRun remover ((walk [] t).map WalkItem.ok)).2 = walk [] t ∧
    (walk [] t).Perm (nodesOf [] t) ∧
    (walk [] t).Nodup ∧
    (walk [] t).Pairwise (fun a b => strictAncestorB a.path b.path = false) :=
  ⟨removePathRun_map_ok remover _, walk_perm [] t, walk_nodup [] t h,
   walk_pairwise [] t h⟩

/-- The spec's concrete scenario `dir1/(file1, dir2/file1)`. -/
def tree1 : FsTree :=
  .dir "dir1"
    (.cons (.file "file1")
      (.cons (.dir "dir2" (.cons (.file "file1") .nil)) .nil))

/-- Witness for C1 on `tree1`: its walk is attempted in full, exactly
once per node, contents first. -/
theorem C1_witness :
    (removePathRun (fun _ => .ok ()) ((walk [] tree1).map WalkItem.ok)).2 =
      walk [] tree1 ∧
    (walk [] tree1).Perm (nodesOf [] tree1) ∧
    (walk [] tree1).Nodup ∧
    (walk [] tree1).Pairwise (fun a b => strictAncestorB a.path b.path = false) :=
  C1_contents_first_exactly_once (fun _ => .ok ()) tree1 (by decide)

end Obliterate
